import Mathlib

/-!
# Verification of the finance-lib amortization core

Shallow embedding of `src/index.js` (finn-no/finance-lib).  JavaScript
numbers are modelled as exact rationals (`ℚ`); the non-finite values
(`NaN`, `±Infinity`) that JavaScript arithmetic can produce are modelled
by the dedicated type `JSNum` where a claim is about them.  Loan periods
are whole numbers of years (`ℕ`), as in every use in the repository, so
`Math.pow` with exponent `period * 12` is an ordinary monoid power.
The ambient wall-clock date read by `new Date()` is passed as an explicit
`JSDate` parameter.
-/

set_option allowUnsafeReducibility true
attribute [local semireducible] Rat.add Rat.mul Rat.inv Rat.sub Rat.div

set_option maxRecDepth 100000

/-- A JavaScript number: either a finite value (modelled exactly as a
rational) or one of the non-finite values `NaN`, `Infinity`, `-Infinity`.
Used to model the paths where the source divides `0/0`. -/
inductive JSNum where
  | fin (q : ℚ)
  | nan
  | inf
  | ninf
deriving DecidableEq, Repr

namespace JSNum

/-- JavaScript addition on numbers. -/
def add : JSNum → JSNum → JSNum
  | fin a, fin b => fin (a + b)
  | fin _, inf => inf
  | fin _, ninf => ninf
  | inf, fin _ => inf
  | ninf, fin _ => ninf
  | inf, inf => inf
  | ninf, ninf => ninf
  | inf, ninf => nan
  | ninf, inf => nan
  | _, _ => nan

/-- JavaScript subtraction on numbers. -/
def sub : JSNum → JSNum → JSNum
  | fin a, fin b => fin (a - b)
  | fin _, inf => ninf
  | fin _, ninf => inf
  | inf, fin _ => inf
  | ninf, fin _ => ninf
  | inf, ninf => inf
  | ninf, inf => ninf
  | inf, inf => nan
  | ninf, ninf => nan
  | _, _ => nan

/-- JavaScript multiplication on numbers (`0 * Infinity = NaN`). -/
def mul : JSNum → JSNum → JSNum
  | fin a, fin b => fin (a * b)
  | fin a, inf => if a = 0 then nan else if 0 < a then inf else ninf
  | fin a, ninf => if a = 0 then nan else if 0 < a then ninf else inf
  | inf, fin b => if b = 0 then nan else if 0 < b then inf else ninf
  | ninf, fin b => if b = 0 then nan else if 0 < b then ninf else inf
  | inf, inf => inf
  | ninf, ninf => inf
  | inf, ninf => ninf
  | ninf, inf => ninf
  | _, _ => nan

/-- JavaScript division on numbers (`0 / 0 = NaN`, `x / 0 = ±Infinity`
for finite nonzero `x`; JavaScript's `+0` is the only zero reachable
here). -/
def div : JSNum → JSNum → JSNum
  | fin a, fin b =>
      if b = 0 then
        if a = 0 then nan else if 0 < a then inf else ninf
      else fin (a / b)
  | fin _, inf => fin 0
  | fin _, ninf => fin 0
  | inf, fin b => if 0 ≤ b then inf else ninf
  | ninf, fin b => if 0 ≤ b then ninf else inf
  | _, _ => nan

/-- JavaScript `Math.pow` with a natural-number exponent. -/
def pow (a : JSNum) : ℕ → JSNum
  | 0 => fin 1
  | n + 1 => mul (pow a n) a

end JSNum

/-- One entry of a loosely-typed fee list: a number, a numeric string
(carrying its parsed value), `undefined`, `null`, or a non-numeric value
such as `'ten'`, `''` or `NaN`. -/
inductive FeeEntry where
  | num (q : ℚ)
  | strNum (q : ℚ)
  | undef
  | null
  | nonNum
deriving DecidableEq, Repr

/-- JavaScript `parseFloat` on a fee entry: numbers and numeric strings
parse to their (finite) value, everything else to `NaN`. -/
def parseFloatJS : FeeEntry → JSNum
  | FeeEntry.num q => JSNum.fin q
  | FeeEntry.strNum q => JSNum.fin q
  | _ => JSNum.nan

/-- The finite value of a `JSNum`, defaulting to `0` (only used on
entries already known to be finite). -/
def JSNum.toRat : JSNum → ℚ
  | JSNum.fin q => q
  | _ => 0

/-- `isNumber` from the source:
`(value) => Number.isFinite(parseFloat(value))`. -/
def isNumber (value : FeeEntry) : Bool :=
  match parseFloatJS value with
  | JSNum.fin _ => true
  | _ => false

/-- `sumArray` from the source:
`(arr) => arr.filter(isNumber).reduce((acc, e) => acc += parseFloat(e), 0)`. -/
def sumArray (arr : List FeeEntry) : ℚ :=
  (arr.filter isNumber).foldl (fun acc e => acc + (parseFloatJS e).toRat) 0

/-- JavaScript `Math.round`: rounds to the nearest integer, halves
toward positive infinity. -/
def jsRound (q : ℚ) : ℤ := ⌊q + 1 / 2⌋

/-- `roundDecimals` from the source:
`const rounding = decimals ? Math.pow(10, decimals) : 1;
return Math.round(n * rounding) / rounding`. -/
def roundDecimals (n : ℚ) (decimals : ℕ := 2) : ℚ :=
  let rounding : ℚ := if decimals = 0 then 1 else 10 ^ decimals
  (jsRound (n * rounding) : ℚ) / rounding

/-- `_amortization` from the source, on finite (rational) inputs:
`ratePerPeriod = rate / 12`,
`numerator = ratePerPeriod * (1 + ratePerPeriod) ^ (period * 12)`,
`denominator = (1 + ratePerPeriod) ^ (period * 12) - 1`,
result `roundDecimals(loanAmount * (numerator / denominator))`. -/
def _amortization (loanAmount rate : ℚ) (period : ℕ) : ℚ :=
  let ratePerPeriod := rate / 12
  let numerator := ratePerPeriod * (1 + ratePerPeriod) ^ (period * 12)
  let denominator := (1 + ratePerPeriod) ^ (period * 12) - 1
  roundDecimals (loanAmount * (numerator / denominator)) 2

/-- `amortizationWithFees` from the source: principal fees are summed
into the loan amount before amortizing, period fees are summed and added
flat on top. -/
def amortizationWithFees (loanAmount rate : ℚ) (period : ℕ)
    (principalFees : List FeeEntry := []) (periodFees : List FeeEntry := []) : ℚ :=
  _amortization (loanAmount + sumArray principalFees) rate period + sumArray periodFees

/-- The body of the `do … while` loop of `effectiveInterest` from the
source, as a fuel-indexed recursion (the fuel is an upper bound on the
iteration count; `effectiveInterest_steps` below proves the loop always
stops after exactly 17 iterations, so any fuel ≥ 17 gives the loop's
value).  State: current `low`, `high`, and the `guess` of the previous
iteration (initially `0.0`).  `n` is `period * paymentsPerYear`. -/
def effectiveInterestGo (loanAmount monthlyPayment : ℚ) (n : ℕ) (guessLimit : ℚ) :
    ℕ → ℚ → ℚ → ℚ → ℚ
  | 0, _, _, guess => guess
  | fuel + 1, low, high, guess =>
      let g := (high - low) / 2 + low
      let prov := monthlyPayment * g * (1 - g ^ n) / (1 - g) / g ^ (n + 1)
      let low' := if prov < loanAmount then low else g
      let high' := if prov < loanAmount then g else high
      if |g - guess| > guessLimit then
        effectiveInterestGo loanAmount monthlyPayment n guessLimit fuel low' high' g
      else g

/-- Iteration counter for the same loop: how many times the loop body
executes before the convergence test stops it (within the given fuel). -/
def effectiveInterestSteps (loanAmount monthlyPayment : ℚ) (n : ℕ) (guessLimit : ℚ) :
    ℕ → ℚ → ℚ → ℚ → ℕ
  | 0, _, _, _ => 0
  | fuel + 1, low, high, guess =>
      let g := (high - low) / 2 + low
      let prov := monthlyPayment * g * (1 - g ^ n) / (1 - g) / g ^ (n + 1)
      let low' := if prov < loanAmount then low else g
      let high' := if prov < loanAmount then g else high
      if |g - guess| > guessLimit then
        1 + effectiveInterestSteps loanAmount monthlyPayment n guessLimit fuel low' high' g
      else 1

/-- `effectiveInterest` from the source: bisection on the monthly growth
factor starting from `low = 1.0`, `high = 2.0`, `guess = 0.0`, tolerance
`10^-5` on successive guesses; returns `guess^12 - 1` rounded to 4
decimals. -/
def effectiveInterest (loanAmount monthlyPayment : ℚ) (period : ℕ) : ℚ :=
  let paymentsPerYear := 12
  let guessLimit : ℚ := 1 / 10 ^ 5
  let g := effectiveInterestGo loanAmount monthlyPayment (period * paymentsPerYear)
    guessLimit 100 1 2 0
  roundDecimals (g ^ paymentsPerYear - 1) 4

/-- A calendar date as JavaScript's `Date` exposes it here: `getFullYear()`
and zero-based `getMonth()`. -/
structure JSDate where
  fullYear : ℤ
  month : ℤ
deriving DecidableEq, Repr

/-- `dateAtIndex` from the source: `offset = i + d.getMonth()`,
`yearsAhead = Math.floor(offset / 12)`, year and zero-based month at that
offset. -/
def dateAtIndex (i : ℤ) (d : JSDate) : ℤ × ℤ :=
  let offset := i + d.month
  let yearsAhead := Int.fdiv offset 12
  (d.fullYear + yearsAhead, offset - yearsAhead * 12)

/-- One element of the array returned by `paymentPlanFromToday`.  All
numeric fields are JavaScript numbers; `downPayment` and `interest` are
integer-valued because they come from `Math.ceil` / `Math.floor`. -/
structure PlanEntry where
  downPayment : ℚ
  feesPaid : ℚ
  remainder : ℚ
  interest : ℚ
  year : ℤ
  month : ℤ
deriving DecidableEq, Repr

/-- The body of the `Array.from` callback of `paymentPlanFromToday`,
threading the mutable `remainder` through the month indices `i`,
`i+1`, …, `i+k-1`. -/
def paymentPlanGo (baseDownPayment monthlyRate periodFeesSum principalFeesSum : ℚ)
    (d : JSDate) : ℕ → ℕ → ℚ → List PlanEntry
  | _, 0, _ => []
  | i, k + 1, remainder =>
      let feesPaid := periodFeesSum + (if i = 0 then principalFeesSum else 0)
      let interest : ℚ := (⌊remainder * monthlyRate⌋ : ℚ)
      let downPayment : ℚ := (⌈min (baseDownPayment - interest) remainder⌉ : ℚ)
      let remainder' := remainder - downPayment
      { downPayment := downPayment, feesPaid := feesPaid, remainder := remainder',
        interest := interest, year := (dateAtIndex ((i : ℤ) + 1) d).1,
        month := (dateAtIndex ((i : ℤ) + 1) d).2 } ::
        paymentPlanGo baseDownPayment monthlyRate periodFeesSum principalFeesSum d
          (i + 1) k remainder'

/-- `paymentPlanFromToday` from the source: `months = period * 12`,
`monthlyRate = rate / 12`, base payment `_amortization` on the raw terms,
`remainder` starts at `loanAmount`; each month pays
`interest = Math.floor(remainder * monthlyRate)` and
`downPayment = Math.ceil(Math.min(baseDownPayment - interest, remainder))`,
fees are `sumArray periodFees` every month plus `sumArray principalFees`
in the first month.  The ambient `new Date()` is the explicit `d`. -/
def paymentPlanFromToday (loanAmount rate : ℚ) (period : ℕ)
    (principalFees : List FeeEntry) (periodFees : List FeeEntry) (d : JSDate) :
    List PlanEntry :=
  paymentPlanGo (_amortization loanAmount rate period) (rate / 12)
    (sumArray periodFees) (sumArray principalFees) d 0 (period * 12) loanAmount

/-- JavaScript `Math.round` extended to non-finite numbers
(`Math.round(NaN) = NaN`, `Math.round(±Infinity) = ±Infinity`). -/
def jsRoundNum : JSNum → JSNum
  | JSNum.fin q => JSNum.fin (jsRound q)
  | x => x

/-- `roundDecimals` from the source, on JavaScript numbers (propagating
`NaN`). -/
def roundDecimalsNum (n : JSNum) (decimals : ℕ := 2) : JSNum :=
  let rounding : ℚ := if decimals = 0 then 1 else 10 ^ decimals
  (jsRoundNum (n.mul (JSNum.fin rounding))).div (JSNum.fin rounding)

/-- `_amortization` from the source, on JavaScript numbers including the
non-finite values, so that the `0 / 0` path taken when `rate = 0` is
visible.  Same expression structure as `_amortization` above. -/
def _amortizationNum (loanAmount rate : JSNum) (period : ℕ) : JSNum :=
  let ratePerPeriod := rate.div (JSNum.fin 12)
  let numerator :=
    ratePerPeriod.mul (((JSNum.fin 1).add ratePerPeriod).pow (period * 12))
  let denominator :=
    (((JSNum.fin 1).add ratePerPeriod).pow (period * 12)).sub (JSNum.fin 1)
  roundDecimalsNum (loanAmount.mul (numerator.div denominator)) 2

/-- Modelled from the spec (§4.3, steps 1–5): the reference bisection
description, written with the spec's `guess = low + (high - low)/2`
midpoint; used to state that the code's loop refines the spec's
description. -/
def effectiveRateSpecGo (loanAmount monthlyPayment : ℚ) (n : ℕ) (guessLimit : ℚ) :
    ℕ → ℚ → ℚ → ℚ → ℚ
  | 0, _, _, guess => guess
  | fuel + 1, low, high, guess =>
      let g := low + (high - low) / 2
      let prov := monthlyPayment * g * (1 - g ^ n) / (1 - g) / g ^ (n + 1)
      let low' := if prov < loanAmount then low else g
      let high' := if prov < loanAmount then g else high
      if |g - guess| > guessLimit then
        effectiveRateSpecGo loanAmount monthlyPayment n guessLimit fuel low' high' g
      else g

/-- Modelled from the spec (§4.3): `solveEffectiveRate`, the spec's
reference definition of the effective-rate solver. -/
def solveEffectiveRate (loanAmount monthlyPayment : ℚ) (period : ℕ) : ℚ :=
  let g := effectiveRateSpecGo loanAmount monthlyPayment (period * 12)
    (1 / 10 ^ 5) 100 1 2 0
  roundDecimals (g ^ 12 - 1) 4

/-- The schedule-remainder invariant of the spec, as a decidable check
along a list of entries: starting from previous outstanding principal
`prev`, every entry satisfies `remainder = prev - downPayment` and
`remainder ≤ prev` (the remainder never increases), chaining `prev`
through the list. -/
def remainderChain (prev : ℚ) : List PlanEntry → Bool
  | [] => true
  | e :: t =>
      decide (e.remainder = prev - e.downPayment) && decide (e.remainder ≤ prev) &&
        remainderChain e.remainder t

/-! ## Helper lemmas -/

/-- The length of the generated plan equals the requested number of
months. -/
lemma paymentPlanGo_length (b mr pf ppf : ℚ) (d : JSDate) :
    ∀ (k i : ℕ) (rem : ℚ), (paymentPlanGo b mr pf ppf d i k rem).length = k := by
  intro k
  induction k with
  | zero => intro i rem; rfl
  | succ k ih => intro i rem; simp [paymentPlanGo, ih]

/-- Folding addition of `f` over a list from `a` is `a` plus the sum of
the mapped list. -/
lemma foldl_add_eq_sum (f : FeeEntry → ℚ) :
    ∀ (l : List FeeEntry) (a : ℚ),
      l.foldl (fun acc e => acc + f e) a = a + (l.map f).sum := by
  intro l
  induction l with
  | nil => intro a; simp
  | cons e t ih => intro a; simp [ih, add_assoc]

/-- `Math.pow(1, m) = 1` in the JavaScript-number model. -/
lemma JSNum.pow_fin_one : ∀ m : ℕ, JSNum.pow (JSNum.fin 1) m = JSNum.fin 1 := by
  intro m
  induction m with
  | zero => rfl
  | succ m ih => simp [JSNum.pow, ih, JSNum.mul]

/-- Rounding to two decimals loses less than half a cent downward. -/
lemma roundDecimals_two_lower (x : ℚ) : x - 1 / 200 < roundDecimals x 2 := by
  have h : (x * 100 + 1 / 2) - 1 < (⌊x * 100 + 1 / 2⌋ : ℚ) := Int.sub_one_lt_floor _
  simp only [roundDecimals, jsRound]
  norm_num
  linarith

/-- The amortized payment is at least the first month's interest on the
full principal, up to the half-cent lost to rounding. -/
lemma _amortization_lower (loanAmount rate : ℚ) (period : ℕ)
    (hla : 0 ≤ loanAmount) (hrate : 0 < rate) (hp : 1 ≤ period) :
    loanAmount * (rate / 12) - 1 / 200 ≤ _amortization loanAmount rate period := by
  unfold _amortization
  have hr0 : 0 < rate / 12 := by positivity
  have hA1 : 1 < (1 + rate / 12) ^ (period * 12) :=
    one_lt_pow (by linarith) (by omega)
  have hfac : rate / 12 ≤
      rate / 12 * (1 + rate / 12) ^ (period * 12) /
        ((1 + rate / 12) ^ (period * 12) - 1) := by
    rw [le_div_iff (by linarith)]
    nlinarith
  have h1 : loanAmount * (rate / 12) ≤
      loanAmount * (rate / 12 * (1 + rate / 12) ^ (period * 12) /
        ((1 + rate / 12) ^ (period * 12) - 1)) :=
    mul_le_mul_of_nonneg_left hfac hla
  have h2 := roundDecimals_two_lower
    (loanAmount * (rate / 12 * (1 + rate / 12) ^ (period * 12) /
      ((1 + rate / 12) ^ (period * 12) - 1)))
  linarith

/-- The remainder invariant holds along `paymentPlanGo` whenever the
monthly rate is nonnegative, `L` bounds the remainder from above, and the
base payment covers one month's interest on `L` up to the half-cent
rounding slack. -/
lemma remainderChain_paymentPlanGo (base mr L pf ppf : ℚ) (d : JSDate)
    (hmr : 0 ≤ mr) (hL : 0 ≤ L) (hbase : L * mr - 1 / 200 ≤ base) :
    ∀ (k i : ℕ) (rem : ℚ), -1 < rem → rem ≤ L →
      remainderChain rem (paymentPlanGo base mr pf ppf d i k rem) = true := by
  intro k
  induction k with
  | zero => intro i rem _ _; rfl
  | succ k ih =>
      intro i rem h1 h2
      have hfl : (⌊rem * mr⌋ : ℚ) ≤ base + 1 / 200 := by
        rcases le_or_lt 0 rem with hr | hr
        · have hmul : rem * mr ≤ L * mr := mul_le_mul_of_nonneg_right h2 hmr
          have := Int.floor_le (rem * mr)
          linarith
        · have hmul : rem * mr ≤ 0 := mul_nonpos_of_nonpos_of_nonneg (le_of_lt hr) hmr
          have hLm : 0 ≤ L * mr := mul_nonneg hL hmr
          have := Int.floor_le (rem * mr)
          linarith
      have hmin : (-1 : ℚ) < min (base - (⌊rem * mr⌋ : ℚ)) rem := by
        rcases le_or_lt 0 rem with hr | hr
        · exact lt_min (by linarith) (by linarith)
        · exact lt_min (by linarith) h1
      have hdp0 : (0 : ℚ) ≤ (⌈min (base - (⌊rem * mr⌋ : ℚ)) rem⌉ : ℚ) := by
        have : (-1 : ℤ) < ⌈min (base - (⌊rem * mr⌋ : ℚ)) rem⌉ := by
          rw [Int.lt_ceil]
          push_cast
          exact hmin
        exact_mod_cast this
      have hdple : (⌈min (base - (⌊rem * mr⌋ : ℚ)) rem⌉ : ℚ) < rem + 1 := by
        have hle : (⌈min (base - (⌊rem * mr⌋ : ℚ)) rem⌉ : ℤ) ≤ ⌈rem⌉ :=
          Int.ceil_le_ceil (min_le_right _ _)
        have hlt : (⌈rem⌉ : ℚ) < rem + 1 := Int.ceil_lt_add_one rem
        have : ((⌈min (base - (⌊rem * mr⌋ : ℚ)) rem⌉ : ℤ) : ℚ) ≤ (⌈rem⌉ : ℚ) := by
          exact_mod_cast hle
        linarith
      simp only [paymentPlanGo, remainderChain, Bool.and_eq_true, decide_eq_true_eq]
      refine ⟨⟨?_, ?_⟩, ?_⟩
      · trivial
      · linarith
      · exact ih (i + 1) _ (by linarith) (by linarith)

/-- The remainder recurrence of one schedule month, extracted from the
loop body of `paymentPlanFromToday`:
`rem - Math.ceil(Math.min(baseDownPayment - Math.floor(rem * monthlyRate), rem))`. -/
def stepRem (base mr : ℚ) (rem : ℚ) : ℚ :=
  rem - (⌈min (base - (⌊rem * mr⌋ : ℚ)) rem⌉ : ℚ)

/-- The `j`-th schedule entry's remainder is the `(j+1)`-fold remainder
recurrence applied to the running remainder. -/
lemma paymentPlanGo_getElem_remainder (base mr pf ppf : ℚ) (d : JSDate) :
    ∀ (j k i : ℕ) (rem : ℚ), j < k →
      ((paymentPlanGo base mr pf ppf d i k rem)[j]?).map PlanEntry.remainder =
        some ((stepRem base mr)^[j + 1] rem) := by
  intro j
  induction j with
  | zero =>
      intro k i rem hjk
      obtain ⟨k', rfl⟩ : ∃ k', k = k' + 1 := ⟨k - 1, by omega⟩
      simp [paymentPlanGo, stepRem]
  | succ j ih =>
      intro k i rem hjk
      obtain ⟨k', rfl⟩ : ∃ k', k = k' + 1 := ⟨k - 1, by omega⟩
      simp only [paymentPlanGo, List.getElem?_cons_succ]
      rw [ih k' (i + 1) _ (by omega)]
      rw [show rem - (⌈min (base - (⌊rem * mr⌋ : ℚ)) rem⌉ : ℚ) = stepRem base mr rem
        from rfl]
      rw [← Function.iterate_succ_apply]

/-- The `j`-th schedule entry's down payment is the difference of two
consecutive remainders. -/
lemma paymentPlanGo_getElem_downPayment (base mr pf ppf : ℚ) (d : JSDate) :
    ∀ (j k i : ℕ) (rem : ℚ), j < k →
      ((paymentPlanGo base mr pf ppf d i k rem)[j]?).map PlanEntry.downPayment =
        some ((stepRem base mr)^[j] rem - (stepRem base mr)^[j + 1] rem) := by
  intro j
  induction j with
  | zero =>
      intro k i rem hjk
      obtain ⟨k', rfl⟩ : ∃ k', k = k' + 1 := ⟨k - 1, by omega⟩
      simp [paymentPlanGo, stepRem]
  | succ j ih =>
      intro k i rem hjk
      obtain ⟨k', rfl⟩ : ∃ k', k = k' + 1 := ⟨k - 1, by omega⟩
      simp only [paymentPlanGo, List.getElem?_cons_succ]
      rw [ih k' (i + 1) _ (by omega)]
      rw [show rem - (⌈min (base - (⌊rem * mr⌋ : ℚ)) rem⌉ : ℚ) = stepRem base mr rem
        from rfl]
      rw [← Function.iterate_succ_apply, ← Function.iterate_succ_apply]

/-- The halving sequence stays above the tolerance for the first 16
exponents. -/
lemma halfpow_gt_limit (k : ℕ) (hk : k ≤ 16) : (1 / 10 ^ 5 : ℚ) < (1 / 2) ^ k := by
  have h1 : ((1 / 2 : ℚ)) ^ 16 ≤ (1 / 2) ^ k :=
    pow_le_pow_of_le_one (by norm_num) (by norm_num) hk
  have h2 : (1 / 10 ^ 5 : ℚ) < (1 / 2) ^ 16 := by norm_num
  linarith

/-- Bisection step count: from a bracket of width `(1/2)^k` whose previous
guess is one of the endpoints, the loop runs exactly `17 - k` more
iterations (for `k ≤ 16`, given enough fuel). -/
lemma effectiveInterestSteps_invariant (la mp : ℚ) (n : ℕ) :
    ∀ (fuel : ℕ) (k : ℕ) (low high guess : ℚ),
      high - low = (1 / 2 : ℚ) ^ k → (guess = low ∨ guess = high) → k ≤ 16 →
      17 ≤ fuel + k →
      effectiveInterestSteps la mp n (1 / 10 ^ 5) fuel low high guess = 17 - k := by
  intro fuel
  induction fuel with
  | zero => intro k low high guess _ _ hk hf; omega
  | succ f ih =>
      intro k low high guess hw hg hk hf
      have hw2 : (1 / 2 : ℚ) ^ (k + 1) = (high - low) / 2 := by
        rw [pow_succ, ← hw]; ring
      have hnn : (0 : ℚ) ≤ (high - low) / 2 := by
        rw [hw]; positivity
      have habs : |(high - low) / 2 + low - guess| = (1 / 2 : ℚ) ^ (k + 1) := by
        rcases hg with h | h
        · rw [h, show (high - low) / 2 + low - low = (high - low) / 2 from by ring,
            abs_of_nonneg hnn]
          exact hw2.symm
        · rw [h, show (high - low) / 2 + low - high = -((high - low) / 2) from by ring,
            abs_neg, abs_of_nonneg hnn]
          exact hw2.symm
      simp only [effectiveInterestSteps]
      rcases Nat.lt_or_ge k 16 with hk15 | hk16
      · rw [if_pos (by rw [habs]; exact halfpow_gt_limit (k + 1) (by omega))]
        split_ifs with hprov
        · have hg1 : (high - low) / 2 + low - low = (1 / 2 : ℚ) ^ (k + 1) := by
            rw [pow_succ, ← hw]; ring
          rw [ih (k + 1) low ((high - low) / 2 + low) ((high - low) / 2 + low)
            (by linarith [hg1]) (Or.inr rfl) (by omega) (by omega)]
          omega
        · have hg2 : high - ((high - low) / 2 + low) = (1 / 2 : ℚ) ^ (k + 1) := by
            rw [pow_succ, ← hw]; ring
          rw [ih (k + 1) ((high - low) / 2 + low) high ((high - low) / 2 + low)
            hg2 (Or.inl rfl) (by omega) (by omega)]
          omega
      · have hk' : k = 16 := by omega
        rw [if_neg (by rw [habs, hk']; norm_num)]
        omega

/-- One unfolding of the loop-body counter (stated explicitly so a
single rewrite performs exactly one unfolding). -/
lemma effectiveInterestSteps_succ (la mp : ℚ) (n : ℕ) (gl : ℚ) (fuel : ℕ)
    (low high guess : ℚ) :
    effectiveInterestSteps la mp n gl (fuel + 1) low high guess =
      if |(high - low) / 2 + low - guess| > gl then
        1 + effectiveInterestSteps la mp n gl fuel
          (if mp * ((high - low) / 2 + low) * (1 - ((high - low) / 2 + low) ^ n) /
              (1 - ((high - low) / 2 + low)) / ((high - low) / 2 + low) ^ (n + 1) < la
            then low else (high - low) / 2 + low)
          (if mp * ((high - low) / 2 + low) * (1 - ((high - low) / 2 + low) ^ n) /
              (1 - ((high - low) / 2 + low)) / ((high - low) / 2 + low) ^ (n + 1) < la
            then (high - low) / 2 + low else high)
          ((high - low) / 2 + low)
      else 1 := rfl

/-- The loop body of `effectiveInterest` written with the spec's
`low + (high - low) / 2` midpoint computes the same value as the
source's `(high - low) / 2 + low`. -/
lemma effectiveInterestGo_eq_specGo (la mp : ℚ) (n : ℕ) (gl : ℚ) :
    ∀ (fuel : ℕ) (low high guess : ℚ),
      effectiveInterestGo la mp n gl fuel low high guess =
        effectiveRateSpecGo la mp n gl fuel low high guess := by
  intro fuel
  induction fuel with
  | zero => intro low high guess; rfl
  | succ f ih =>
      intro low high guess
      simp only [effectiveInterestGo, effectiveRateSpecGo]
      rw [add_comm ((high - low) / 2) low]
      split_ifs <;> first | exact ih _ _ _ | rfl

/-! ## Claims -/

/-- C1: `_amortization` returns, for every input, the closed-form payment
`loanAmount * (r * (1+r)^n) / ((1+r)^n - 1)` with `r = rate/12` and
`n = period*12`, rounded to 2 decimal places with halves rounding up
(`roundDecimals x 2 = ⌊100x + 1/2⌋ / 100`); and on the spec's concrete
inputs it returns 400.76, 470.64 and 8870.3. -/
theorem amortization_closed_form :
    (∀ n : ℚ, roundDecimals n 2 = (⌊n * 100 + 1 / 2⌋ : ℚ) / 100) ∧
    (∀ (loanAmount rate : ℚ) (period : ℕ),
      _amortization loanAmount rate period =
        roundDecimals (loanAmount * (rate / 12 * (1 + rate / 12) ^ (period * 12)) /
          ((1 + rate / 12) ^ (period * 12) - 1)) 2) ∧
    _amortization 20000 (75 / 1000) 5 = 40076 / 100 ∧
    _amortization 25000 (49 / 1000) 5 = 47064 / 100 ∧
    _amortization 2100000 (197 / 10000) 25 = 88703 / 10 := by
  refine ⟨?_, ?_, by decide, by decide, by decide⟩
  · intro n
    simp only [roundDecimals, jsRound]
    norm_num
  · intro loanAmount rate period
    simp only [_amortization, mul_div_assoc]

/-- C2 counterexample: at the spec's own concrete loan terms
`{loanAmount := 20000, rate := 0.075, period := 5}` (which satisfy
`loanAmount > 0`, `rate ∈ (0,1)`, `period > 0`), feeding the amortized
payment back into `effectiveInterest` does NOT return a value within
±0.0003 of `rate`: it returns 0.0776, which is 0.0026 away from 0.075. -/
theorem effectiveInterest_roundtrip_counterexample :
    (0 : ℚ) < 20000 ∧ (0 : ℚ) < 75 / 1000 ∧ (75 / 1000 : ℚ) < 1 ∧ 0 < 5 ∧
    ¬ (|effectiveInterest 20000 (_amortization 20000 (75 / 1000) 5) 5 - 75 / 1000|
        ≤ 3 / 10000) := by
  refine ⟨by norm_num, by norm_num, by norm_num, by norm_num, ?_⟩
  decide

/-- C2 (amended): the rate solver inverts the payment to the
*compounded* annual equivalent `(1 + rate/12)^12 - 1` of the nominal
rate, not to the nominal rate itself; the round trip through
`_amortization` recovers that compounded rate within ±0.0003 at each of
the spec's three concrete loan terms. -/
theorem effectiveInterest_roundtrip_compounded :
    |effectiveInterest 20000 (_amortization 20000 (75 / 1000) 5) 5 -
      ((1 + 75 / 1000 / 12) ^ 12 - 1)| ≤ 3 / 10000 ∧
    |effectiveInterest 25000 (_amortization 25000 (49 / 1000) 5) 5 -
      ((1 + 49 / 1000 / 12) ^ 12 - 1)| ≤ 3 / 10000 ∧
    |effectiveInterest 2100000 (_amortization 2100000 (197 / 10000) 25) 25 -
      ((1 + 197 / 10000 / 12) ^ 12 - 1)| ≤ 3 / 10000 := by
  refine ⟨by decide, by decide, by decide⟩

/-- C3: moving an amount `x` from `loanAmount` into `principalFees`
leaves the fee-adjusted payment unchanged; in general
`amortizationWithFees` is `_amortization` of `loanAmount` plus the sum of
the principal fees, plus the sum of the period fees flat on top; and the
spec's concrete instance 19000 + [1000] gives the same 400.76 payment as
20000. -/
theorem amortizationWithFees_fee_shift :
    (∀ (loanAmount rate x : ℚ) (period : ℕ),
      amortizationWithFees loanAmount rate period [FeeEntry.num x] [] =
        amortizationWithFees (loanAmount + x) rate period [] []) ∧
    (∀ (loanAmount rate : ℚ) (period : ℕ) (principalFees periodFees : List FeeEntry),
      amortizationWithFees loanAmount rate period principalFees periodFees =
        _amortization (loanAmount + sumArray principalFees) rate period +
          sumArray periodFees) ∧
    _amortization 20000 (75 / 1000) 5 =
      amortizationWithFees 19000 (75 / 1000) 5 [FeeEntry.num 1000] [] := by
  refine ⟨?_, fun _ _ _ _ _ => rfl, by decide⟩
  intro loanAmount rate x period
  simp [amortizationWithFees, sumArray, isNumber, parseFloatJS, JSNum.toRat]

/-- C4: in every schedule produced by `paymentPlanFromToday` on valid
loan terms (`loanAmount ≥ 0`, `rate > 0`, `period ≥ 1`), each entry's
remainder equals the previous entry's remainder minus that entry's
`downPayment` (the first entry's previous remainder being `loanAmount`),
and the remainder never increases. -/
theorem paymentPlanFromToday_remainder_invariant (loanAmount rate : ℚ) (period : ℕ)
    (principalFees periodFees : List FeeEntry) (d : JSDate)
    (hla : 0 ≤ loanAmount) (hrate : 0 < rate) (hp : 1 ≤ period) :
    remainderChain loanAmount
      (paymentPlanFromToday loanAmount rate period principalFees periodFees d) = true := by
  unfold paymentPlanFromToday
  exact remainderChain_paymentPlanGo (_amortization loanAmount rate period)
    (rate / 12) loanAmount (sumArray periodFees) (sumArray principalFees) d
    (by positivity) hla
    (_amortization_lower loanAmount rate period hla hrate hp)
    (period * 12) 0 loanAmount (by linarith) le_rfl

/-- C4 witness: the remainder invariant holds on the concrete schedule
for a 1000-unit loan at 5% over one year. -/
theorem paymentPlanFromToday_remainder_invariant_witness :
    (0 : ℚ) ≤ 1000 ∧ (0 : ℚ) < 1 / 20 ∧ 1 ≤ 1 ∧
    remainderChain 1000
      (paymentPlanFromToday 1000 (1 / 20) 1 [] [] ⟨2025, 0⟩) = true :=
  ⟨by norm_num, by norm_num, le_refl 1,
    paymentPlanFromToday_remainder_invariant 1000 (1 / 20) 1 [] [] ⟨2025, 0⟩
      (by norm_num) (by norm_num) (le_refl 1)⟩

/-- C5: the 300-entry schedule for `{loanAmount := 4000000,
rate := 0.025, period := 25}` ends with remainder exactly 0, and its last
entry's `downPayment` equals the second-to-last entry's remainder (the
base date only fixes the calendar fields and does not affect the
amounts). -/
theorem paymentPlanFromToday_concrete_final :
    (paymentPlanFromToday 4000000 (1 / 40) 25 [] [] ⟨2025, 9⟩).length = 300 ∧
    ((paymentPlanFromToday 4000000 (1 / 40) 25 [] [] ⟨2025, 9⟩)[299]?).map
      PlanEntry.remainder = some 0 ∧
    ((paymentPlanFromToday 4000000 (1 / 40) 25 [] [] ⟨2025, 9⟩)[299]?).map
      PlanEntry.downPayment =
      ((paymentPlanFromToday 4000000 (1 / 40) 25 [] [] ⟨2025, 9⟩)[298]?).map
        PlanEntry.remainder := by
  have hb : _amortization 4000000 (1 / 40) 25 = 1794467 / 100 := by decide
  have h300 : (stepRem (1794467 / 100) (1 / 40 / 12))^[300] (4000000 : ℚ) = 0 := by
    decide
  refine ⟨paymentPlanGo_length _ _ _ _ _ _ _ _, ?_, ?_⟩
  · unfold paymentPlanFromToday
    rw [paymentPlanGo_getElem_remainder _ _ _ _ _ 299 (25 * 12) 0 4000000 (by norm_num)]
    rw [hb]
    rw [show (299 : ℕ) + 1 = 300 from rfl, h300]
  · unfold paymentPlanFromToday
    rw [paymentPlanGo_getElem_downPayment _ _ _ _ _ 299 (25 * 12) 0 4000000 (by norm_num)]
    rw [paymentPlanGo_getElem_remainder _ _ _ _ _ 298 (25 * 12) 0 4000000 (by norm_num)]
    rw [hb]
    rw [show (299 : ℕ) + 1 = 300 from rfl, show (298 : ℕ) + 1 = 299 from rfl, h300,
      sub_zero]

/-- C6: the code's `effectiveInterest` computes exactly the spec's
reference bisection `solveEffectiveRate` (midpoint written
`low + (high-low)/2`, annuity formula
`monthlyPayment * g * (1 - g^n) / (1 - g) / g^(n+1)`, `high := guess`
when the provisional principal is below `loanAmount`, tolerance `1e-5`,
result `guess^12 - 1` rounded to 4 decimals), and on the spec's concrete
input `(17000, 518, 5)` the result lies in `[0.3043, 0.3049]`. -/
theorem effectiveInterest_refines_spec :
    (∀ (loanAmount monthlyPayment : ℚ) (period : ℕ),
      effectiveInterest loanAmount monthlyPayment period =
        solveEffectiveRate loanAmount monthlyPayment period) ∧
    3043 / 10000 ≤ effectiveInterest 17000 518 5 ∧
    effectiveInterest 17000 518 5 ≤ 3049 / 10000 := by
  refine ⟨?_, by decide, by decide⟩
  intro loanAmount monthlyPayment period
  simp only [effectiveInterest, solveEffectiveRate]
  rw [effectiveInterestGo_eq_specGo]

/-- C7: for every input, the bisection loop of `effectiveInterest`
terminates by its convergence criterion after exactly 17 iterations: the
interval halves each iteration from width 1.0, so successive guesses
first differ by at most `1e-5` at iteration 17. -/
theorem effectiveInterest_loop_runs_17_iterations
    (loanAmount monthlyPayment : ℚ) (n : ℕ) :
    effectiveInterestSteps loanAmount monthlyPayment n (1 / 10 ^ 5) 100 1 2 0 = 17 := by
  rw [show (100 : ℕ) = 99 + 1 from rfl, effectiveInterestSteps_succ]
  rw [if_pos (by rw [show |((2 : ℚ) - 1) / 2 + 1 - 0| = 3 / 2 from by
    rw [show ((2 : ℚ) - 1) / 2 + 1 - 0 = 3 / 2 from by norm_num]
    exact abs_of_pos (by norm_num)]; norm_num)]
  split_ifs with hprov
  · rw [effectiveInterestSteps_invariant loanAmount monthlyPayment n 99 1 1
      ((2 - 1) / 2 + 1) ((2 - 1) / 2 + 1) (by norm_num) (Or.inr rfl)
      (by norm_num) (by norm_num)]
  · rw [effectiveInterestSteps_invariant loanAmount monthlyPayment n 99 1
      ((2 - 1) / 2 + 1) 2 ((2 - 1) / 2 + 1) (by norm_num) (Or.inl rfl)
      (by norm_num) (by norm_num)]

/-- C8: for every loan terms, fee set and base date,
`paymentPlanFromToday` returns exactly `period * 12` entries. -/
theorem paymentPlanFromToday_length (loanAmount rate : ℚ) (period : ℕ)
    (principalFees periodFees : List FeeEntry) (d : JSDate) :
    (paymentPlanFromToday loanAmount rate period principalFees periodFees d).length =
      period * 12 :=
  paymentPlanGo_length _ _ _ _ _ _ _ _

/-- C9: with `rate = 0` the source's expression reduces to `0 / 0`, so
`_amortization` evaluates to JavaScript's `NaN` for every `loanAmount`
and `period`; the function is total (no exception path exists) and the
non-finite value is silently returned to the caller. -/
theorem amortization_zero_rate_nan (loanAmount : ℚ) (period : ℕ) :
    _amortizationNum (JSNum.fin loanAmount) (JSNum.fin 0) period = JSNum.nan := by
  simp [_amortizationNum, JSNum.div, JSNum.add, JSNum.pow_fin_one, JSNum.mul,
    JSNum.sub, roundDecimalsNum, jsRoundNum]

/-- C10: `sumArray` sums exactly the entries that parse to finite
numbers: non-numeric entries (undefined, null, `'ten'`) are excluded
rather than contributing zero or erroring, numeric strings contribute
their parsed value; in particular `[1, undefined, 2, 3, undefined, 4]`
sums to 10 and `["1.5", "3.5", 4.5, 0.25, 0.25, undefined]` sums like its
all-numeric counterpart. -/
theorem sumArray_sums_finite_entries :
    (∀ arr : List FeeEntry,
      sumArray arr = ((arr.filter isNumber).map (fun e => (parseFloatJS e).toRat)).sum) ∧
    sumArray [FeeEntry.num 1, FeeEntry.undef, FeeEntry.num 2, FeeEntry.num 3,
      FeeEntry.undef, FeeEntry.num 4] = 10 ∧
    sumArray [FeeEntry.num 1, FeeEntry.null, FeeEntry.num 2, FeeEntry.num 3,
      FeeEntry.undef, FeeEntry.num 4] = 10 ∧
    sumArray [FeeEntry.strNum (3 / 2), FeeEntry.strNum (7 / 2), FeeEntry.num (9 / 2),
      FeeEntry.num (1 / 4), FeeEntry.num (1 / 4), FeeEntry.undef] =
      sumArray [FeeEntry.num (3 / 2), FeeEntry.num (7 / 2), FeeEntry.num (9 / 2),
        FeeEntry.num (1 / 4), FeeEntry.num (1 / 4), FeeEntry.undef] := by
  refine ⟨?_, by decide, by decide, by decide⟩
  intro arr
  rw [sumArray, foldl_add_eq_sum, zero_add]
